import Mathlib

/-!
Verification of the tabroom TFA-points scraper (`tfa_scraper.py`) and its
consumer (`app.py`), as a shallow embedding in Lean.

HTML pages are modelled as flat lists of nodes in document order (headings,
tables, anchors); the network is modelled as a function from result ids to
fetch outcomes (a parsed page, an HTTP failure status, a timeout, or a
connection failure).  Python floats produced by `float()` on the matched
numeric token are modelled exactly as rationals.  Cell and heading texts are
stored already `get_text(" ", strip=True)`-processed, except where the source
applies further processing (stripping, lowercasing, splitting), which is
modelled explicitly.
-/

namespace TFA

/-! ## Character and string utilities -/

/-- Python `str.strip()` on the stored text: drop leading and trailing
whitespace. -/
def pyStrip (s : String) : String :=
  String.mk (((s.data.dropWhile Char.isWhitespace).reverse.dropWhile
    Char.isWhitespace).reverse)

/-- Python `needle in hay` on strings, as a Boolean on character lists. -/
def subList (needle : List Char) : List Char → Bool
  | [] => needle.isEmpty
  | c :: rest => needle.isPrefixOf (c :: rest) || subList needle rest

/-- Python `needle in hay` on strings. -/
def strIn (needle hay : String) : Bool := subList needle.data hay.data

/-- Lowercased character list of a string, modelling Python `.lower()`. -/
def lowerChars (s : String) : List Char := s.data.map Char.toLower

/-- `" ".join(texts)` on character lists. -/
def joinSpace : List (List Char) → List Char
  | [] => []
  | [t] => t
  | t :: ts => t ++ ' ' :: joinSpace ts

/-! ## The points regex

`re.search(r"[-+]?\d*\.?\d+", pts_str.replace(",", ""))` followed by
`float(...)` on the matched token.  The pattern is matched with Python's
leftmost, greedy-with-backtracking semantics, specialised to this fixed
pattern. -/

/-- Maximal run of ASCII digits at the head of the list, with the rest. -/
def digitRun : List Char → List Char × List Char
  | [] => ([], [])
  | c :: cs =>
    if c.isDigit then
      let p := digitRun cs
      (c :: p.1, p.2)
    else ([], c :: cs)

/-- The input after a leading decimal point, when there is one. -/
def afterDot : List Char → Option (List Char)
  | [] => none
  | c :: cs => if c = '.' then some cs else none

/-- Match `\d*\.?\d+` at the start of the input under greedy backtracking,
returning the matched token.  With `ds` the maximal leading digit run: if
`ds` is nonempty the token is `ds`, extended by `.` and a further digit run
when one immediately follows; if `ds` is empty the pattern only matches as
`.` followed by a nonempty digit run. -/
def matchBody (cs : List Char) : Option (List Char) :=
  let p := digitRun cs
  match afterDot p.2 with
  | some cs2 =>
    let q := digitRun cs2
    if p.1.isEmpty then
      if q.1.isEmpty then none else some ('.' :: q.1)
    else
      if q.1.isEmpty then some p.1 else some (p.1 ++ '.' :: q.1)
  | none => if p.1.isEmpty then none else some p.1

/-- Match `[-+]?\d*\.?\d+` at the start of the input.  A sign is consumed
only when the body matches after it; a bare sign cannot match at all (the
body's backtracking alternative at the same position starts with the sign
character and fails). -/
def matchSigned : List Char → Option (List Char)
  | [] => none
  | c :: cs =>
    if c = '+' ∨ c = '-' then
      match matchBody cs with
      | some t => some (c :: t)
      | none => none
    else matchBody (c :: cs)

/-- `re.search` for the points pattern: try every start position from the
left, first successful match wins. -/
def reSearchNum : List Char → Option (List Char)
  | [] => none
  | c :: cs =>
    match matchSigned (c :: cs) with
    | some t => some t
    | none => reSearchNum cs

/-- Split a matched token at its (unique) decimal point:
integer digits and fraction digits. -/
def splitFrac : List Char → List Char × List Char
  | [] => ([], [])
  | c :: cs =>
    if c = '.' then ([], cs)
    else
      let p := splitFrac cs
      (c :: p.1, p.2)

/-- Numeric value of a digit character. -/
def digitVal (c : Char) : ℕ := c.toNat - '0'.toNat

/-- Horner evaluation of a digit string, as `float()` parses it. -/
def digitsToNat (ds : List Char) : ℕ :=
  ds.foldl (fun a c => 10 * a + digitVal c) 0

/-- Value of an unsigned token `ds` or `ds.fs` or `.fs`. -/
def bodyVal (cs : List Char) : ℚ :=
  let p := splitFrac cs
  (digitsToNat p.1 : ℚ) + (digitsToNat p.2 : ℚ) / 10 ^ p.2.length

/-- `float()` of a matched token: optional sign, then the unsigned body. -/
def tokVal (cs : List Char) : ℚ :=
  match cs with
  | [] => 0
  | c :: rest =>
    if c = '-' then -bodyVal rest
    else if c = '+' then bodyVal rest
    else bodyVal (c :: rest)

/-- The character filter of `pts_str.replace(",", "")`. -/
def notComma (c : Char) : Bool := c ≠ ','

/-- The points extractor of `parse_tfa_rows`: remove all commas, search for
the first numeric token, convert it with `float()`. -/
def extractPoints (s : String) : Option ℚ :=
  (reSearchNum (s.data.filter notComma)).map tokVal

/-! ## HTML page model -/

/-- Heading tags the scraper distinguishes. -/
inductive HTag | h2 | h3 | h4
deriving DecidableEq

/-- A table cell: a `th` or `td` element with its
`get_text(" ", strip=True)` text. -/
structure Cell where
  isTh : Bool
  text : String
deriving DecidableEq

/-- A table: its `tr` rows, each a list of cells. -/
structure Table where
  rows : List (List Cell)
deriving DecidableEq

/-- A document node in document order.  Anchor nodes carry their optional
`href` attribute; heading nodes carry their string content. -/
inductive Node
  | heading (tag : HTag) (text : String)
  | table (t : Table)
  | anchor (href : Option String)
deriving DecidableEq

/-- A parsed page: nodes in document order plus the `<title>` text
(`none` when the document has no title element). -/
structure Soup where
  nodes : List Node
  title : Option String
deriving DecidableEq

/-! ## Records

`parse_tfa_rows` builds Python dicts; records are modelled as ordered
association lists from field names to values, so that which keys a record
carries is part of the model. -/

/-- A record field value: the parsed points number or a text field. -/
inductive Val
  | num (q : ℚ)
  | str (s : String)
deriving DecidableEq

/-- A scraped record: the dict literal of `parse_tfa_rows`. -/
abbrev Rec := List (String × Val)

/-- The dict literal appended by `parse_tfa_rows`, in source key order. -/
def mkRec (points : ℚ) (entry school qualifying_event event : String) : Rec :=
  [("points", Val.num points), ("entry", Val.str entry),
   ("school", Val.str school), ("qualifying_event", Val.str qualifying_event),
   ("event", Val.str event)]

/-! ## Table locator (`find_tfa_table`) -/

/-- The `string=` filter of the heading search:
`x and ("TFA" in x or "Qualification" in x)`. -/
def headingMatches (txt : String) : Bool :=
  strIn "TFA" txt || strIn "Qualification" txt

/-- Does this node match `soup.find(["h3", "h4"], string=...)`? -/
def isMatchingHeading : Node → Bool
  | .heading tag txt => (tag = HTag.h3 || tag = HTag.h4) && headingMatches txt
  | _ => false

/-- Nodes following the first matching heading in document order, when a
matching heading exists. -/
def afterMatchingHeading : List Node → Option (List Node)
  | [] => none
  | n :: rest =>
    if isMatchingHeading n then some rest else afterMatchingHeading rest

/-- `heading.find_next("table")`: the first table among the given nodes. -/
def firstTableIn : List Node → Option Table
  | [] => none
  | .table t :: _ => some t
  | _ :: rest => firstTableIn rest

/-- The fallback test on one table: inspect the first `tr`; lowercase and
space-join its `th`/`td` texts; match on the `"point"`/`"place"`/`"placed"`
or `len >= 3` and `"point"`/`"tfa"` keyword conditions. -/
def headerRowMatches (t : Table) : Bool :=
  match t.rows with
  | [] => false
  | r :: _ =>
    let texts := r.map (fun c => lowerChars c.text)
    let headerStr := String.mk (joinSpace texts)
    (strIn "point" headerStr && (strIn "place" headerStr || strIn "placed" headerStr))
      || (decide (texts.length ≥ 3) && (strIn "point" headerStr || strIn "tfa" headerStr))

/-- The fallback scan: first table on the page passing the header test. -/
def fallbackTable : List Node → Option Table
  | [] => none
  | .table t :: rest => if headerRowMatches t then some t else fallbackTable rest
  | _ :: rest => fallbackTable rest

/-- `find_tfa_table`: first try the heading whose string contains `"TFA"` or
`"Qualification"` and take the first table after it; when there is no such
heading, or no table follows it, fall back to the header-keyword scan. -/
def find_tfa_table (s : Soup) : Option Table :=
  match afterMatchingHeading s.nodes with
  | some rest =>
    match firstTableIn rest with
    | some t => some t
    | none => fallbackTable s.nodes
  | none => fallbackTable s.nodes

/-! ## Row parser (`parse_tfa_rows`) -/

/-- A default cell for positional access below indices proven in range. -/
def defaultCell : Cell := ⟨false, ""⟩

/-- The body of the row loop of `parse_tfa_rows`, over the rows from
`start_idx` on: keep rows with at least 4 `td` cells and a parseable
numeric first cell.  (The `try/except` around the extraction is
unreachable: `float()` cannot fail on a matched token.) -/
def rowLoop (event_name : String) : List (List Cell) → List Rec
  | [] => []
  | tr :: rest =>
    let tds := tr.filter (fun c => !c.isTh)
    if tds.length < 4 then rowLoop event_name rest
    else
      match extractPoints (tds.getD 0 defaultCell).text with
      | none => rowLoop event_name rest
      | some points =>
        let entry := if tds.length ≥ 3 then (tds.getD 2 defaultCell).text else ""
        let school := if tds.length ≥ 4 then (tds.getD 3 defaultCell).text else ""
        let qualifying_event :=
          if tds.length ≥ 5 then (tds.getD 4 defaultCell).text else ""
        mkRec points entry school qualifying_event event_name
          :: rowLoop event_name rest

/-- `parse_tfa_rows`: `start_idx = 1 if rows and rows[0].find_all(["th","td"])
else 0`, then the row loop from `start_idx`. -/
def parse_tfa_rows (t : Table) (event_name : String) : List Rec :=
  match t.rows with
  | [] => []
  | r0 :: rest =>
    if r0.isEmpty then rowLoop event_name (r0 :: rest)
    else rowLoop event_name rest

/-! ## Event name (`get_event_name`) -/

/-- First `h2` element's string content, in document order. -/
def findH2Text : List Node → Option String
  | [] => none
  | .heading HTag.h2 txt :: _ => some txt
  | _ :: rest => findH2Text rest

/-- `soup.title.text.split("|")[0].strip()`. -/
def titleFirstSegment (t : String) : String :=
  pyStrip (String.mk (t.data.takeWhile (fun c => c ≠ '|')))

/-- `get_event_name`: the first `h2`'s stripped text when nonempty, else the
pre-`"|"` fragment of a present, nonempty title, else `"Unknown Event"`. -/
def get_event_name (s : Soup) : String :=
  let fromTitle : String :=
    match s.title with
    | some t => if t ≠ "" then titleFirstSegment t else "Unknown Event"
    | none => "Unknown Event"
  match findH2Text s.nodes with
  | some txt =>
    let name := pyStrip txt
    if name ≠ "" then name else fromTitle
  | none => fromTitle

/-! ## Network model and `page_has_tfa_points` -/

/-- Transport failures `requests` can raise out of `get_soup`: a failing
HTTP status via `raise_for_status`, a timeout, or a connection failure. -/
inductive TransportError | httpStatus | timedOut | connFailed
deriving DecidableEq

/-- The outcome of one HTTP GET for a given result id. -/
inductive FetchResult
  | ok (s : Soup)
  | httpFail
  | timeoutFail
  | connectionFail
deriving DecidableEq

/-- `get_soup`: return the parsed page, or raise the transport failure. -/
def get_soup : FetchResult → Except TransportError Soup
  | .ok s => .ok s
  | .httpFail => .error .httpStatus
  | .timeoutFail => .error .timedOut
  | .connectionFail => .error .connFailed

/-- `page_has_tfa_points`: fetch the page for a result id and parse it.
Only `requests.HTTPError` is caught (yielding `([], "Unknown Event")`);
a `Timeout` or `ConnectionError` propagates to the caller. -/
def page_has_tfa_points (fetch : ℕ → FetchResult) (result_id : ℕ) :
    Except TransportError (List Rec × String) :=
  match get_soup (fetch result_id) with
  | .error .httpStatus => .ok ([], "Unknown Event")
  | .error e => .error e
  | .ok soup =>
    let event_name := get_event_name soup
    match find_tfa_table soup with
    | none => .ok ([], event_name)
    | some tbl => .ok (parse_tfa_rows tbl event_name, event_name)

/-- Did the probe of this id complete without an uncaught exception? -/
def pageOk (fetch : ℕ → FetchResult) (result_id : ℕ) : Bool :=
  match page_has_tfa_points fetch result_id with
  | .ok _ => true
  | .error _ => false

/-- The rows a completed probe yields (`[]` for a probe that raised). -/
def pageRowsD (fetch : ℕ → FetchResult) (result_id : ℕ) : List Rec :=
  match page_has_tfa_points fetch result_id with
  | .ok p => p.1
  | .error _ => []

/-- The event name a completed probe yields. -/
def pageEvD (fetch : ℕ → FetchResult) (result_id : ℕ) : String :=
  match page_has_tfa_points fetch result_id with
  | .ok p => p.2
  | .error _ => "Unknown Event"

/-! ## Result-id discovery (`extract_result_ids_from_index`) -/

/-- Match the literal `needle` at the head, returning the remainder. -/
def dropLit : List Char → List Char → Option (List Char)
  | [], s => some s
  | _ :: _, [] => none
  | l :: ls, c :: cs => if c = l then dropLit ls cs else none

/-- `re.search(r"result_id=(\d+)", href)`: the first occurrence of the
literal `result_id=` immediately followed by at least one digit; the
captured group is the maximal digit run there. -/
def findResultId : List Char → Option ℕ
  | [] => none
  | c :: cs =>
    match dropLit ("result_id=".data) (c :: cs) with
    | some rest =>
      let p := digitRun rest
      if p.1.isEmpty then findResultId cs else some (digitsToNat p.1)
    | none => findResultId cs

/-- Insert into an ascending duplicate-free list, modelling accumulation
into a `set` later emitted by `sorted(...)`. -/
def insertSet (x : ℕ) : List ℕ → List ℕ
  | [] => [x]
  | y :: ys =>
    if x < y then x :: y :: ys
    else if x = y then y :: ys
    else y :: insertSet x ys

/-- The hrefs selected by `soup.select("a[href*='event_results.mhtml']")`:
anchors carrying an `href` attribute containing the marker substring. -/
def selectedHrefs (nodes : List Node) : List String :=
  nodes.filterMap (fun n =>
    match n with
    | .anchor (some h) => if strIn "event_results.mhtml" h then some h else none
    | _ => none)

/-- `extract_result_ids_from_index` given the fetched index page: collect
every embedded numeric result id into a set, returned in ascending order. -/
def extract_result_ids_from_index (s : Soup) : List ℕ :=
  (selectedHrefs s.nodes).foldl (fun acc h =>
    match findResultId h.data with
    | some n => insertSet n acc
    | none => acc) []

/-! ## Seeking (`find_true_starting_result_id`) -/

/-- Python `sorted` on a list of naturals (insertion sort). -/
def insertAsc (x : ℕ) : List ℕ → List ℕ
  | [] => [x]
  | y :: ys => if x ≤ y then x :: y :: ys else y :: insertAsc x ys

/-- Python `sorted` on a list of naturals. -/
def sortAsc (l : List ℕ) : List ℕ := l.foldr insertAsc []

/-- Python `min` on a nonempty list of naturals (0 on the empty list,
which the caller never passes). -/
def pyMin : List ℕ → ℕ
  | [] => 0
  | x :: xs => xs.foldl Nat.min x

/-- The loop of `find_true_starting_result_id` over the sorted candidates.
Returns the first id whose probe yields rows, together with the ids probed
in order; an uncaught transport failure propagates. -/
def seekLoop (fetch : ℕ → FetchResult) :
    List ℕ → Except TransportError (Option ℕ) × List ℕ
  | [] => (.ok none, [])
  | rid :: rest =>
    match page_has_tfa_points fetch rid with
    | .error e => (.error e, [rid])
    | .ok p =>
      if p.1.isEmpty then
        let r := seekLoop fetch rest
        (r.1, rid :: r.2)
      else (.ok (some rid), [rid])

/-- `find_true_starting_result_id`: walk `sorted(candidates)`. -/
def find_true_starting_result_id (fetch : ℕ → FetchResult)
    (candidates : List ℕ) : Except TransportError (Option ℕ) × List ℕ :=
  seekLoop fetch (sortAsc candidates)

/-! ## Scanning (`scrape_tfa_tournament`) -/

instance instDecEqExcept {ε α : Type} [DecidableEq ε] [DecidableEq α] :
    DecidableEq (Except ε α)
  | .ok a, .ok b =>
    match decEq a b with
    | isTrue h => isTrue (congrArg Except.ok h)
    | isFalse h => isFalse (fun hh => h (Except.ok.inj hh))
  | .error a, .error b =>
    match decEq a b with
    | isTrue h => isTrue (congrArg Except.error h)
    | isFalse h => isFalse (fun hh => h (Except.error.inj hh))
  | .ok _, .error _ => isFalse (fun hh => Except.noConfusion hh)
  | .error _, .ok _ => isFalse (fun hh => Except.noConfusion hh)

/-- Outcome of the scanning loop: the accumulated rows (or the uncaught
transport failure), and the result ids probed, in order. -/
structure ScanOut where
  result : Except TransportError (List Rec)
  probes : List ℕ
deriving DecidableEq

/-- The `while empty_streak < empty_streak_limit` loop, fuelled: each
iteration probes `rid`, appends its rows and resets the streak when
nonempty, increments the streak when empty, and moves to `rid + 1`.
`none` means the fuel ran out before the loop terminated. -/
def scanLoop (fetch : ℕ → FetchResult) (limit : ℕ) :
    ℕ → ℕ → ℕ → List Rec → List ℕ → Option ScanOut
  | 0, _, _, _, _ => none
  | fuel + 1, rid, streak, acc, probes =>
    if streak < limit then
      match page_has_tfa_points fetch rid with
      | .error e => some ⟨.error e, probes ++ [rid]⟩
      | .ok p =>
        if p.1.isEmpty then
          scanLoop fetch limit fuel (rid + 1) (streak + 1) acc (probes ++ [rid])
        else
          scanLoop fetch limit fuel (rid + 1) 0 (acc ++ p.1) (probes ++ [rid])
    else some ⟨.ok acc, probes⟩

/-- Outcome of a whole scrape: the returned rows or the propagated
transport failure, and the result ids probed during seeking and during
scanning. -/
structure ScrapeOut where
  result : Except TransportError (List Rec)
  seekProbes : List ℕ
  scanProbes : List ℕ
deriving DecidableEq

/-- `scrape_tfa_tournament`: fetch the index, discover candidate ids
(returning `[]` when there are none), seek the starting id (falling back
to the minimum candidate), then scan upward until `empty_streak_limit`
consecutive empty probes.  `idx` is the fetch outcome of the index page;
`fetch` gives the fetch outcome of each result page. -/
def scrape_tfa_tournament (idx : FetchResult) (fetch : ℕ → FetchResult)
    (limit : ℕ) (fuel : ℕ) : Option ScrapeOut :=
  match get_soup idx with
  | .error e => some ⟨.error e, [], []⟩
  | .ok isoup =>
    let candidates := extract_result_ids_from_index isoup
    if candidates.isEmpty then some ⟨.ok [], [], []⟩
    else
      match find_true_starting_result_id fetch candidates with
      | (.error e, sp) => some ⟨.error e, sp, []⟩
      | (.ok found, sp) =>
        let start_id := found.getD (pyMin candidates)
        match scanLoop fetch limit fuel start_id 0 [] [] with
        | none => none
        | some o => some ⟨o.result, sp, o.probes⟩

/-! ## The consumer side (`app.py`) -/

/-- The column list `app.py` selects from the scraped frame at the
scrape-and-append step. -/
def appColumns : List String :=
  ["entry", "school", "qualifying_event", "event", "points", "tournament"]

/-- `pd.DataFrame(recs)[cols]`: project every record onto `cols`; pandas
raises `KeyError` (modelled as `none`) when a requested column is absent
from the records. -/
def selectColumns (cols : List String) (recs : List Rec) :
    Option (List (List Val)) :=
  if recs.all (fun r => cols.all (fun c => (List.lookup c r).isSome)) then
    some (recs.map (fun r => cols.map (fun c => (List.lookup c r).getD (Val.str ""))))
  else none

/-! ## Valid numeric-looking strings

The shape the specification calls a "valid numeric-looking string with
thousands separators or signs": an optional sign, digit groups joined by
commas, and an optional decimal part.  Its mathematical value is defined
through Mathlib's positional evaluation `Nat.ofDigits`, independently of the
extraction code. -/

/-- A numeric literal: optional sign (`some true` is minus, `some false` is
plus), comma-separated digit groups, optional fraction digits. -/
structure NumLit where
  sgn : Option Bool
  groups : List (List Char)
  fracDigits : Option (List Char)

/-- The sign characters of the rendered literal. -/
def NumLit.signChars (n : NumLit) : List Char :=
  match n.sgn with
  | none => []
  | some true => ['-']
  | some false => ['+']

/-- Digit groups joined by thousands-separator commas. -/
def joinComma : List (List Char) → List Char
  | [] => []
  | [g] => g
  | g :: gs => g ++ ',' :: joinComma gs

/-- The decimal-part characters of the rendered literal. -/
def NumLit.fracChars (n : NumLit) : List Char :=
  match n.fracDigits with
  | none => []
  | some fs => '.' :: fs

/-- The literal rendered as a string. -/
def NumLit.render (n : NumLit) : String :=
  String.mk (n.signChars ++ joinComma n.groups ++ n.fracChars)

/-- Well-formedness: at least one digit group, all groups nonempty and made
of digits, and (when present) nonempty all-digit fraction digits. -/
def NumLit.wf (n : NumLit) : Prop :=
  n.groups ≠ [] ∧ (∀ g ∈ n.groups, g ≠ [] ∧ ∀ c ∈ g, c.isDigit = true)
    ∧ ∀ fs, n.fracDigits = some fs → fs ≠ [] ∧ ∀ c ∈ fs, c.isDigit = true

/-- Mathematical value of a digit string (most significant digit first). -/
def digitsVal (ds : List Char) : ℕ := Nat.ofDigits 10 (ds.map digitVal).reverse

/-- Mathematical value of the literal. -/
def NumLit.value (n : NumLit) : ℚ :=
  let mag : ℚ := (digitsVal n.groups.flatten : ℚ)
    + (match n.fracDigits with
       | none => 0
       | some fs => (digitsVal fs : ℚ) / 10 ^ fs.length)
  match n.sgn with
  | some true => -mag
  | _ => mag

/-! ## Concrete instances used in the claim theorems -/

/-- A table whose header row is followed by one well-formed data row. -/
def c1Table : Table :=
  ⟨[[⟨true, "Points"⟩, ⟨true, "Place"⟩, ⟨true, "Entry"⟩, ⟨true, "School"⟩],
    [⟨false, "12"⟩, ⟨false, "1"⟩, ⟨false, "Alice"⟩, ⟨false, "Lincoln HS"⟩]]⟩

/-- A fetcher that times out on every probe. -/
def c2Fetch : ℕ → FetchResult := fun _ => .timeoutFail

/-- A fetcher whose every probe fails with an HTTP failure status. -/
def c2FetchH : ℕ → FetchResult := fun _ => .httpFail

/-- A page with no `h2` and a title whose pre-`|` fragment is empty. -/
def c4Soup : Soup := ⟨[], some "|Finals"⟩

/-- A page with no `h2` and an ordinary title. -/
def c4WSoup : Soup := ⟨[], some "Finals | Tabroom"⟩

/-- The table after the first (non-TFA) matching heading. -/
def c6TableA : Table := ⟨[[⟨true, "A"⟩]]⟩

/-- The table after the later "TFA Qualification" heading. -/
def c6TableB : Table := ⟨[[⟨true, "B"⟩]]⟩

/-- A page where a heading containing only `"Qualification"` precedes the
`"TFA Qualification"` heading, each followed by a table. -/
def c6Soup : Soup :=
  ⟨[Node.heading HTag.h3 "Qualification Fees", Node.table c6TableA,
    Node.heading HTag.h3 "TFA Qualification", Node.table c6TableB], none⟩

/-- A table used by the C6 witness. -/
def c6WTable : Table := ⟨[[⟨false, "w"⟩]]⟩

/-- An index page with anchors, none matching the result-page pattern. -/
def c7Soup : Soup :=
  ⟨[Node.anchor (some "index.mhtml?tourn_id=1"), Node.anchor none,
    Node.heading HTag.h3 "Results"], none⟩

/-- A fetcher returning an empty parseable page for every probe. -/
def emptyFetch : ℕ → FetchResult := fun _ => .ok ⟨[], none⟩

/-- An index page advertising exactly one result id, 3. -/
def c10Idx : FetchResult :=
  .ok ⟨[Node.anchor (some "event_results.mhtml?result_id=3")], none⟩

/-- A result page with a TFA heading and one data row. -/
def c5Table : Table :=
  ⟨[[⟨true, "Points"⟩, ⟨true, "Place"⟩, ⟨true, "Entry"⟩, ⟨true, "School"⟩],
    [⟨false, "12"⟩, ⟨false, "1"⟩, ⟨false, "Alice"⟩, ⟨false, "Lincoln HS"⟩]]⟩

/-- The page served at the scripted nonempty positions. -/
def c5Page : Soup :=
  ⟨[Node.heading HTag.h3 "TFA Qualification", Node.table c5Table], some "LD | Tabroom"⟩

/-- The scripted fetcher of the C5 witness: rows exactly at ids 5, 6, 9. -/
def c5Fetch : ℕ → FetchResult :=
  fun n => if n = 5 ∨ n = 6 ∨ n = 9 then .ok c5Page else .ok ⟨[], none⟩

/-- The numeric literal `-1,234.5` used by the C3 witness. -/
def c3Lit : NumLit := ⟨some true, [['1'], ['2', '3', '4']], some ['5']⟩

/-! ## Helper lemmas -/

/-- A completed probe is `.ok` of its row list and event name. -/
lemma pageOk_elim {fetch : ℕ → FetchResult} {n : ℕ} (h : pageOk fetch n = true) :
    page_has_tfa_points fetch n = .ok (pageRowsD fetch n, pageEvD fetch n) := by
  unfold pageOk at h
  unfold pageRowsD pageEvD
  cases hp : page_has_tfa_points fetch n with
  | ok p => simp [hp]
  | error e => rw [hp] at h; simp at h

/-! ## C1 -/

/-- C1: every record produced by the extraction pipeline is claimed to carry
all six fields of the data model, including `tournament`.  In fact the row
parser emits records with exactly the five keys `points`, `entry`, `school`,
`qualifying_event`, `event`, and no `tournament` key, so the column selection
performed by `app.py` (which requires a `tournament` column) fails on every
successfully scraped record: evaluated here on a well-formed one-row table. -/
theorem c1_tournament_field_missing :
    (parse_tfa_rows c1Table "LD").length = 1
    ∧ (parse_tfa_rows c1Table "LD").all
        (fun r => (List.lookup "tournament" r).isNone) = true
    ∧ (parse_tfa_rows c1Table "LD").all
        (fun r => (List.lookup "points" r).isSome && (List.lookup "entry" r).isSome
          && (List.lookup "school" r).isSome
          && (List.lookup "qualifying_event" r).isSome
          && (List.lookup "event" r).isSome) = true
    ∧ selectColumns appColumns (parse_tfa_rows c1Table "LD") = none := by
  refine ⟨by decide, by decide, by decide, by decide⟩

/-! ## C2 -/

/-- C2 counterexample: a timeout on a probe is not treated as "no data for
that identifier" — `page_has_tfa_points` propagates it and the scanning loop
aborts the whole scan with the error after that single probe. -/
theorem c2_timeout_aborts_scan :
    page_has_tfa_points c2Fetch 5 = .error .timedOut
    ∧ scanLoop c2Fetch 12 10 5 0 [] [] = some ⟨.error .timedOut, [5]⟩ := by
  exact ⟨rfl, by decide⟩

/-- C2 (amended): only an HTTP failure status is caught and treated as an
empty probe — it yields `([], "Unknown Event")` and the scanning loop counts
it toward the empty streak and continues with the next identifier; timeouts
and connection failures, by contrast, abort the scan. -/
theorem c2_http_error_counts_as_empty :
    (∀ (fetch : ℕ → FetchResult) (rid : ℕ), fetch rid = .httpFail →
      page_has_tfa_points fetch rid = .ok ([], "Unknown Event"))
    ∧ (∀ (fetch : ℕ → FetchResult) (limit fuel rid streak : ℕ)
        (acc : List Rec) (probes : List ℕ),
        fetch rid = .httpFail → streak < limit →
        scanLoop fetch limit (fuel + 1) rid streak acc probes
          = scanLoop fetch limit fuel (rid + 1) (streak + 1) acc (probes ++ [rid])) := by
  constructor
  · intro fetch rid h
    simp [page_has_tfa_points, h, get_soup]
  · intro fetch limit fuel rid streak acc probes h hlt
    simp [scanLoop, page_has_tfa_points, h, get_soup, hlt]

/-- C2 witness: the amended theorem applied to the all-HTTP-failure fetcher
at identifier 4 with streak 0 and limit 12. -/
theorem c2_witness :
    page_has_tfa_points c2FetchH 4 = .ok ([], "Unknown Event")
    ∧ scanLoop c2FetchH 12 (3 + 1) 4 0 [] []
        = scanLoop c2FetchH 12 3 (4 + 1) (0 + 1) [] ([] ++ [4]) :=
  ⟨c2_http_error_counts_as_empty.1 c2FetchH 4 rfl,
   c2_http_error_counts_as_empty.2 c2FetchH 12 3 4 0 [] [] rfl (by decide)⟩

/-! ## C8 -/

/-- C8: the row parser skips the table's first row whenever it has at least
one `th` or `td` cell — even a well-formed data row in first position never
produces a record and its content cannot influence the output — and parsing
starts at row 0 exactly when the first row has no cells. -/
theorem c8_first_row_skipped :
    (∀ (r0 : List Cell) (rest : List (List Cell)) (ev : String), r0 ≠ [] →
      parse_tfa_rows ⟨r0 :: rest⟩ ev = rowLoop ev rest)
    ∧ (∀ (r0 r1 : List Cell) (rest : List (List Cell)) (ev : String),
        r0 ≠ [] → r1 ≠ [] →
        parse_tfa_rows ⟨r0 :: rest⟩ ev = parse_tfa_rows ⟨r1 :: rest⟩ ev)
    ∧ (∀ (rest : List (List Cell)) (ev : String),
        parse_tfa_rows ⟨[] :: rest⟩ ev = rowLoop ev ([] :: rest)) := by
  have h1 : ∀ (r0 : List Cell) (rest : List (List Cell)) (ev : String), r0 ≠ [] →
      parse_tfa_rows ⟨r0 :: rest⟩ ev = rowLoop ev rest := by
    intro r0 rest ev h
    simp [parse_tfa_rows, List.isEmpty_iff, h]
  refine ⟨h1, ?_, ?_⟩
  · intro r0 r1 rest ev h0 hh1
    rw [h1 r0 rest ev h0, h1 r1 rest ev hh1]
  · intro rest ev
    simp [parse_tfa_rows, List.isEmpty_iff]

/-- C8 witness: a well-formed data row (four `td` cells, numeric first cell,
shown parseable by the third conjunct on the row loop) is skipped in first
position: the parse equals the parse with that row replaced by a bare header
cell row, and both produce no record. -/
theorem c8_witness :
    parse_tfa_rows ⟨[[⟨false, "12"⟩, ⟨false, "1"⟩, ⟨false, "Alice"⟩, ⟨false, "Lincoln HS"⟩]]⟩ "E"
      = parse_tfa_rows ⟨[[⟨true, "Hdr"⟩]]⟩ "E"
    ∧ rowLoop "E" [[⟨false, "12"⟩, ⟨false, "1"⟩, ⟨false, "Alice"⟩, ⟨false, "Lincoln HS"⟩]] ≠ [] :=
  ⟨c8_first_row_skipped.2.1 _ [⟨true, "Hdr"⟩] [] "E" (by decide) (by decide),
   by decide⟩

/-! ## C4 -/

/-- C4 counterexample: on a page with no heading and title `"|Finals"`, the
pre-`|` title fragment strips to nothing and `get_event_name` returns the
empty string — the claimed non-emptiness invariant fails. -/
theorem c4_empty_event_name : get_event_name c4Soup = "" := by decide

/-- C4 (amended): the event name is the first `h2` heading's text, a title
fragment, or the sentinel, and it is non-empty provided that whenever the
page has a title with non-empty text, the fragment of that title before the
first `|` does not strip to the empty string. -/
theorem c4_event_name_nonempty_cond :
    ∀ s : Soup, (∀ t, s.title = some t → t ≠ "" → titleFirstSegment t ≠ "") →
      get_event_name s ≠ "" := by
  intro s h
  have hT : (match s.title with
      | some t => if t ≠ "" then titleFirstSegment t else "Unknown Event"
      | none => "Unknown Event") ≠ "" := by
    cases ht : s.title with
    | none => simp
    | some t =>
      by_cases he : t = ""
      · simp [he]
      · simpa [he] using h t ht he
  unfold get_event_name
  cases hh : findH2Text s.nodes with
  | none => simpa using hT
  | some txt =>
    by_cases hn : pyStrip txt = ""
    · simpa [hn] using hT
    · simp [hn]

/-- C4 witness: the amended theorem applied to a page with no heading and
title `"Finals | Tabroom"`, whose fragment strips to `"Finals"`. -/
theorem c4_witness : get_event_name c4WSoup ≠ "" :=
  c4_event_name_nonempty_cond c4WSoup (by
    intro t ht hne
    simp only [c4WSoup] at ht
    injection ht with ht
    subst ht
    decide)

/-! ## Substring facts -/

/-- The Boolean substring test agrees with list infix. -/
lemma subList_correct (n : List Char) : ∀ h : List Char, subList n h = true ↔ n <:+: h := by
  intro h
  induction h with
  | nil => simp [subList, List.isEmpty_iff]
  | cons c t ih =>
    simp only [subList, Bool.or_eq_true, List.isPrefixOf_iff_prefix, ih]
    constructor
    · rintro (hp | hi)
      · exact hp.isInfix
      · exact hi.trans (List.suffix_cons c t).isInfix
    · intro hin
      rcases List.infix_cons_iff.mp hin with hp | hi
      · exact Or.inl hp
      · exact Or.inr hi

/-- Python `in` is transitive across strings. -/
lemma strIn_trans {a b c : String} (hab : strIn a b = true) (hbc : strIn b c = true) :
    strIn a c = true := by
  unfold strIn at *
  rw [subList_correct] at *
  exact hab.trans hbc

/-! ## C6 -/

/-- The heading search lands on the first matching node. -/
lemma afterMatchingHeading_append {pre : List Node}
    (hpre : ∀ n ∈ pre, isMatchingHeading n = false)
    {h : Node} (hmatch : isMatchingHeading h = true) (post : List Node) :
    afterMatchingHeading (pre ++ h :: post) = some post := by
  induction pre with
  | nil => simp [afterMatchingHeading, hmatch]
  | cons p ps ih =>
    have hp := hpre p (List.mem_cons_self p ps)
    simp only [List.cons_append, afterMatchingHeading, hp, Bool.false_eq_true, if_false]
    exact ih (fun n hn => hpre n (List.mem_cons_of_mem p hn))

/-- C6 counterexample: `c6Soup` contains the h3 heading `"TFA Qualification"`
followed by table B, yet the locator returns table A — the table after the
earlier heading `"Qualification Fees"`, which also satisfies the marker
lambda — so the claimed table is not selected. -/
theorem c6_counterexample :
    strIn "TFA Qualification" "TFA Qualification" = true
    ∧ c6Soup.nodes = [Node.heading HTag.h3 "Qualification Fees", Node.table c6TableA]
        ++ Node.heading HTag.h3 "TFA Qualification" :: [Node.table c6TableB]
    ∧ firstTableIn [Node.table c6TableB] = some c6TableB
    ∧ find_tfa_table c6Soup = some c6TableA
    ∧ c6TableA ≠ c6TableB := by decide

/-- C6 (amended): the locator takes the first table after the FIRST h3/h4
heading whose string contains `"TFA"` or `"Qualification"`; in particular,
when no earlier h3/h4 heading matches those markers, a heading containing
`"TFA Qualification"` that is followed by a table has that table selected
over every other table on the page. -/
theorem c6_heading_selection :
    ∀ (pre post : List Node) (tag : HTag) (txt : String) (title : Option String) (t : Table),
      (tag = HTag.h3 ∨ tag = HTag.h4) →
      strIn "TFA Qualification" txt = true →
      (∀ n ∈ pre, isMatchingHeading n = false) →
      firstTableIn post = some t →
      find_tfa_table ⟨pre ++ Node.heading tag txt :: post, title⟩ = some t := by
  intro pre post tag txt title t htag hTFA hpre hfirst
  have hmatch : isMatchingHeading (Node.heading tag txt) = true := by
    have h1 : strIn "TFA" txt = true := strIn_trans (by decide) hTFA
    rcases htag with h | h <;> simp [isMatchingHeading, h, headingMatches, h1]
  unfold find_tfa_table
  simp only [afterMatchingHeading_append hpre hmatch post, hfirst]

/-- C6 witness: the amended theorem applied with an `h2` heading containing
`"TFA"` before the matching `h3` heading (the `h2` does not match, since the
search is restricted to h3/h4) and a table after other nodes. -/
theorem c6_witness :
    find_tfa_table ⟨[Node.heading HTag.h2 "TFA Events"]
      ++ Node.heading HTag.h3 "TFA Qualification Standings"
      :: [Node.anchor none, Node.table c6WTable], none⟩ = some c6WTable :=
  c6_heading_selection [Node.heading HTag.h2 "TFA Events"]
    [Node.anchor none, Node.table c6WTable] HTag.h3 "TFA Qualification Standings"
    none c6WTable (Or.inl rfl) (by decide) (by decide) (by decide)

/-! ## C7 -/

/-- C7: when the index page has zero hyperlinks matching the per-event
result page pattern, discovery returns the empty list and the pipeline
returns the empty row sequence as a non-error outcome without probing any
result identifier — both probe traces are empty, for any fuel. -/
theorem c7_no_candidates_no_probes :
    ∀ (isoup : Soup) (fetch : ℕ → FetchResult) (limit fuel : ℕ),
      selectedHrefs isoup.nodes = [] →
      extract_result_ids_from_index isoup = []
      ∧ scrape_tfa_tournament (.ok isoup) fetch limit fuel = some ⟨.ok [], [], []⟩ := by
  intro isoup fetch limit fuel h
  have he : extract_result_ids_from_index isoup = [] := by
    unfold extract_result_ids_from_index
    rw [h]
    rfl
  exact ⟨he, by simp [scrape_tfa_tournament, get_soup, he]⟩

/-- C7 witness: the theorem applied to an index page whose anchors are an
href without the marker and an anchor with no href at all, with zero scan
fuel — the empty outcome needs no probe. -/
theorem c7_witness :
    extract_result_ids_from_index c7Soup = []
    ∧ scrape_tfa_tournament (.ok c7Soup) emptyFetch 12 0 = some ⟨.ok [], [], []⟩ :=
  c7_no_candidates_no_probes c7Soup emptyFetch 12 0 (by decide)

/-! ## Scanning-loop step lemmas -/

/-- Once the streak has reached the limit, the loop stops and returns the
accumulator. -/
lemma scanLoop_stop {fetch : ℕ → FetchResult} {limit fuel rid streak : ℕ}
    {acc : List Rec} {probes : List ℕ} (h : limit ≤ streak) :
    scanLoop fetch limit (fuel + 1) rid streak acc probes = some ⟨.ok acc, probes⟩ := by
  simp [scanLoop, Nat.not_lt.mpr h]

/-- An empty probe increments the streak and moves to the next id. -/
lemma scanLoop_step_empty {fetch : ℕ → FetchResult} {limit fuel rid streak : ℕ}
    {acc : List Rec} {probes : List ℕ} {ev : String}
    (hp : page_has_tfa_points fetch rid = .ok ([], ev)) (hlt : streak < limit) :
    scanLoop fetch limit (fuel + 1) rid streak acc probes
      = scanLoop fetch limit fuel (rid + 1) (streak + 1) acc (probes ++ [rid]) := by
  simp [scanLoop, hlt, hp]

/-- A nonempty probe appends its rows, resets the streak, and moves on. -/
lemma scanLoop_step_nonempty {fetch : ℕ → FetchResult} {limit fuel rid streak : ℕ}
    {acc rows : List Rec} {probes : List ℕ} {ev : String}
    (hp : page_has_tfa_points fetch rid = .ok (rows, ev)) (hne : rows ≠ [])
    (hlt : streak < limit) :
    scanLoop fetch limit (fuel + 1) rid streak acc probes
      = scanLoop fetch limit fuel (rid + 1) 0 (acc ++ rows) (probes ++ [rid]) := by
  simp [scanLoop, hlt, hp, List.isEmpty_iff, hne]

/-- A run of `k` consecutive empty probes adds `k` to the streak and records
the `k` probed ids, provided the streak stays within the limit. -/
lemma scanLoop_empty_run {fetch : ℕ → FetchResult} {limit : ℕ} (k : ℕ) :
    ∀ (fuel rid streak : ℕ) (acc : List Rec) (probes : List ℕ),
      (∀ i, i < k → ∃ ev, page_has_tfa_points fetch (rid + i) = .ok ([], ev)) →
      streak + k ≤ limit →
      scanLoop fetch limit (fuel + k) rid streak acc probes
        = scanLoop fetch limit fuel (rid + k) (streak + k) acc
            (probes ++ List.range' rid k) := by
  induction k with
  | zero => intro fuel rid streak acc probes _ _; simp
  | succ k ih =>
    intro fuel rid streak acc probes hemp hle
    obtain ⟨ev, hev⟩ := hemp 0 (by omega)
    rw [show rid + 0 = rid from rfl] at hev
    rw [show fuel + (k + 1) = (fuel + k) + 1 from by omega,
      scanLoop_step_empty hev (by omega)]
    rw [ih fuel (rid + 1) (streak + 1) acc (probes ++ [rid])
      (fun i hi => by
        have h := hemp (i + 1) (by omega)
        rwa [show rid + (i + 1) = rid + 1 + i from by omega] at h)
      (by omega)]
    rw [show rid + 1 + k = rid + (k + 1) from by omega,
      show streak + 1 + k = streak + (k + 1) from by omega, List.range'_succ]
    simp

/-! ## C5 -/

/-- C5: with the default threshold 12, on any scripted fetcher whose pages
complete and yield rows exactly at identifiers 5, 6 and 9 within [5, 21],
scanning from the chosen starting identifier 5 probes exactly the ids
5..21 — stopping 12 empty identifiers after 9, the last probed id being
9 + 12 — and returns exactly the rows of pages 5, 6 and 9 concatenated.
In general a nonempty page resets the consecutive-empty counter to zero and
the loop stops the moment the counter reaches the threshold. -/
theorem c5_scripted_scan :
    (∀ fetch : ℕ → FetchResult,
      (∀ n, 5 ≤ n → n ≤ 21 → pageOk fetch n = true) →
      pageRowsD fetch 5 ≠ [] → pageRowsD fetch 6 ≠ [] → pageRowsD fetch 9 ≠ [] →
      (∀ n, 5 ≤ n → n ≤ 21 → n ≠ 5 → n ≠ 6 → n ≠ 9 → pageRowsD fetch n = []) →
      ∀ fuel, scanLoop fetch 12 (fuel + 18) 5 0 [] []
          = some ⟨.ok (pageRowsD fetch 5 ++ pageRowsD fetch 6 ++ pageRowsD fetch 9),
              List.range' 5 17⟩
        ∧ (List.range' 5 17).getLast? = some (9 + 12))
    ∧ (∀ (fetch : ℕ → FetchResult) (limit fuel rid streak : ℕ)
        (acc rows : List Rec) (probes : List ℕ) (ev : String),
        page_has_tfa_points fetch rid = .ok (rows, ev) → rows ≠ [] → streak < limit →
        scanLoop fetch limit (fuel + 1) rid streak acc probes
          = scanLoop fetch limit fuel (rid + 1) 0 (acc ++ rows) (probes ++ [rid]))
    ∧ (∀ (fetch : ℕ → FetchResult) (limit fuel rid streak : ℕ)
        (acc : List Rec) (probes : List ℕ), limit ≤ streak →
        scanLoop fetch limit (fuel + 1) rid streak acc probes = some ⟨.ok acc, probes⟩) := by
  refine ⟨?_, ?_, ?_⟩
  · intro fetch hok h5 h6 h9 hemp fuel
    have hp : ∀ n, 5 ≤ n → n ≤ 21 →
        page_has_tfa_points fetch n = .ok (pageRowsD fetch n, pageEvD fetch n) :=
      fun n a b => pageOk_elim (hok n a b)
    have hpe : ∀ n, 5 ≤ n → n ≤ 21 → n ≠ 5 → n ≠ 6 → n ≠ 9 →
        page_has_tfa_points fetch n = .ok ([], pageEvD fetch n) := by
      intro n a b c d e
      have hh := hp n a b
      rwa [hemp n a b c d e] at hh
    refine ⟨?_, by decide⟩
    rw [show fuel + 18 = (fuel + 17) + 1 from by omega,
      scanLoop_step_nonempty (hp 5 (by omega) (by omega)) h5 (by omega)]
    rw [show fuel + 17 = (fuel + 16) + 1 from by omega,
      scanLoop_step_nonempty (hp 6 (by omega) (by omega)) h6 (by omega)]
    rw [show fuel + 16 = (fuel + 14) + 2 from by omega,
      scanLoop_empty_run 2 (fuel + 14) 7 0 _ _
        (fun i hi => ⟨pageEvD fetch (7 + i), by
          interval_cases i
          · exact hpe 7 (by omega) (by omega) (by omega) (by omega) (by omega)
          · exact hpe 8 (by omega) (by omega) (by omega) (by omega) (by omega)⟩)
        (by omega)]
    rw [show fuel + 14 = (fuel + 13) + 1 from by omega,
      scanLoop_step_nonempty (hp 9 (by omega) (by omega)) h9 (by omega)]
    rw [show fuel + 13 = (fuel + 1) + 12 from by omega,
      scanLoop_empty_run 12 (fuel + 1) 10 0 _ _
        (fun i hi => ⟨pageEvD fetch (10 + i), by
          exact hpe (10 + i) (by omega) (by omega) (by omega) (by omega) (by omega)⟩)
        (by omega)]
    rw [scanLoop_stop (by omega)]
    simp only [ScanOut.mk.injEq, Option.some.injEq]
    constructor
    · simp [List.append_assoc]
    · decide
  · intro fetch limit fuel rid streak acc rows probes ev hpg hne hlt
    exact scanLoop_step_nonempty hpg hne hlt
  · intro fetch limit fuel rid streak acc probes h
    exact scanLoop_stop h

/-- C5 witness: the scripted-scan theorem applied to the concrete fetcher
with rows exactly at 5, 6 and 9 and empty parseable pages elsewhere. -/
theorem c5_witness :
    scanLoop c5Fetch 12 (0 + 18) 5 0 [] []
      = some ⟨.ok (pageRowsD c5Fetch 5 ++ pageRowsD c5Fetch 6 ++ pageRowsD c5Fetch 9),
          List.range' 5 17⟩
    ∧ (List.range' 5 17).getLast? = some (9 + 12) :=
  c5_scripted_scan.1 c5Fetch
    (by
      intro n h1 h2
      by_cases h : n = 5 ∨ n = 6 ∨ n = 9 <;>
        simp only [pageOk, page_has_tfa_points, c5Fetch, h, get_soup, if_true,
          if_false] <;>
        decide)
    (by decide) (by decide) (by decide)
    (by
      intro n h1 h2 h5 h6 h9
      have h : ¬(n = 5 ∨ n = 6 ∨ n = 9) := by omega
      simp [pageRowsD, page_has_tfa_points, c5Fetch, h, get_soup, find_tfa_table,
        afterMatchingHeading, fallbackTable])
    0

/-! ## C9 -/

/-- When every id from the current one on yields no rows, the loop runs out
of streak budget (or aborts on an error) within the remaining fuel. -/
lemma scanLoop_all_empty_terminates {fetch : ℕ → FetchResult} {limit : ℕ} :
    ∀ (fuel rid streak : ℕ) (acc : List Rec) (probes : List ℕ),
      (∀ n, rid ≤ n → pageRowsD fetch n = []) →
      limit - streak < fuel →
      (scanLoop fetch limit fuel rid streak acc probes).isSome = true := by
  intro fuel
  induction fuel with
  | zero => intro rid streak acc probes _ h; omega
  | succ f ih =>
    intro rid streak acc probes hall hf
    by_cases hlt : streak < limit
    · cases hp : page_has_tfa_points fetch rid with
      | error e => simp [scanLoop, hlt, hp]
      | ok p =>
        obtain ⟨rs, ev⟩ := p
        have hrows : rs = [] := by
          have h := hall rid (le_refl rid)
          unfold pageRowsD at h
          rw [hp] at h
          exact h
        subst hrows
        rw [scanLoop_step_empty hp hlt]
        exact ih (rid + 1) (streak + 1) acc (probes ++ [rid])
          (fun n hn => hall n (by omega)) (by omega)
    · simp [scanLoop, hlt]

/-- Once all ids beyond some bound yield no rows, the loop terminates given
enough fuel to walk past the bound plus the streak budget. -/
lemma scanLoop_bounded_terminates {fetch : ℕ → FetchResult} {limit N : ℕ} :
    ∀ (d fuel rid streak : ℕ) (acc : List Rec) (probes : List ℕ),
      (∀ n, N < n → pageRowsD fetch n = []) →
      N < rid + d →
      d + limit < fuel →
      (scanLoop fetch limit fuel rid streak acc probes).isSome = true := by
  intro d
  induction d with
  | zero =>
    intro fuel rid streak acc probes hall hN hf
    exact scanLoop_all_empty_terminates fuel rid streak acc probes
      (fun n hn => hall n (by omega)) (by omega)
  | succ d ih =>
    intro fuel rid streak acc probes hall hN hf
    cases fuel with
    | zero => omega
    | succ f =>
      by_cases hlt : streak < limit
      · cases hp : page_has_tfa_points fetch rid with
        | error e => simp [scanLoop, hlt, hp]
        | ok p =>
          obtain ⟨rs, ev⟩ := p
          by_cases hre : rs = []
          · subst hre
            rw [scanLoop_step_empty hp hlt]
            exact ih f (rid + 1) (streak + 1) acc (probes ++ [rid]) hall
              (by omega) (by omega)
          · rw [scanLoop_step_nonempty hp hre hlt]
            exact ih f (rid + 1) 0 (acc ++ rs) (probes ++ [rid]) hall
              (by omega) (by omega)
      · simp [scanLoop, hlt]

/-- C9: for every fetcher under which only finitely many identifiers at or
above the start yield a nonempty row set, and every threshold at least 1,
the scanning loop terminates with some fuel. -/
theorem c9_scan_terminates :
    ∀ (fetch : ℕ → FetchResult) (start limit : ℕ), 1 ≤ limit →
      {n : ℕ | start ≤ n ∧ pageRowsD fetch n ≠ []}.Finite →
      ∃ fuel, (scanLoop fetch limit fuel start 0 [] []).isSome = true := by
  intro fetch start limit _ hfin
  obtain ⟨N, hN⟩ := hfin.bddAbove
  have hall : ∀ n, N + start < n → pageRowsD fetch n = [] := by
    intro n hn
    by_contra hne
    have hmem : n ∈ {n : ℕ | start ≤ n ∧ pageRowsD fetch n ≠ []} := ⟨by omega, hne⟩
    have := hN hmem
    omega
  refine ⟨(N + start + 1) + limit + 1, ?_⟩
  exact scanLoop_bounded_terminates (N := N + start) (N + start + 1) _ start 0 [] []
    hall (by omega) (by omega)

/-- C9 witness: the termination theorem applied to the all-empty fetcher
with threshold 1 from start 0; its nonempty set is empty, hence finite. -/
theorem c9_witness :
    1 ≤ 1 ∧ {n : ℕ | 0 ≤ n ∧ pageRowsD emptyFetch n ≠ []}.Finite
    ∧ ∃ fuel, (scanLoop emptyFetch 1 fuel 0 0 [] []).isSome = true := by
  have hempty : {n : ℕ | 0 ≤ n ∧ pageRowsD emptyFetch n ≠ []} = ∅ := by
    ext n
    simp [pageRowsD, page_has_tfa_points, emptyFetch, get_soup, find_tfa_table,
      afterMatchingHeading, fallbackTable]
  have hfin : {n : ℕ | 0 ≤ n ∧ pageRowsD emptyFetch n ≠ []}.Finite := by
    rw [hempty]; exact Set.finite_empty
  exact ⟨le_refl 1, hfin, c9_scan_terminates emptyFetch 0 1 (le_refl 1) hfin⟩

/-! ## C10 -/

/-- A successful scanning loop probes a consecutive interval of ids starting
at the current one, and returns the accumulator extended with exactly the
rows of those probes, in probe order. -/
lemma scanLoop_ok_decomp {fetch : ℕ → FetchResult} {limit : ℕ} :
    ∀ (fuel rid streak : ℕ) (acc : List Rec) (probes : List ℕ)
      (out : ScanOut) (rs : List Rec),
      scanLoop fetch limit fuel rid streak acc probes = some out →
      out.result = .ok rs →
      ∃ k, out.probes = probes ++ List.range' rid k
        ∧ rs = acc ++ ((List.range' rid k).map (pageRowsD fetch)).flatten := by
  intro fuel
  induction fuel with
  | zero => intro rid streak acc probes out rs h; simp [scanLoop] at h
  | succ f ih =>
    intro rid streak acc probes out rs h hres
    by_cases hlt : streak < limit
    · cases hp : page_has_tfa_points fetch rid with
      | error e =>
        simp [scanLoop, hlt, hp] at h
        rw [← h] at hres
        simp at hres
      | ok p =>
        obtain ⟨rows, ev⟩ := p
        have hrowsD : pageRowsD fetch rid = rows := by
          unfold pageRowsD
          rw [hp]
        by_cases hre : rows = []
        · subst hre
          rw [scanLoop_step_empty hp hlt] at h
          obtain ⟨k, hk1, hk2⟩ := ih (rid + 1) (streak + 1) acc (probes ++ [rid])
            out rs h hres
          refine ⟨k + 1, ?_, ?_⟩
          · rw [hk1, List.range'_succ]
            simp
          · rw [hk2, List.range'_succ]
            simp [hrowsD]
        · rw [scanLoop_step_nonempty hp hre hlt] at h
          obtain ⟨k, hk1, hk2⟩ := ih (rid + 1) 0 (acc ++ rows) (probes ++ [rid])
            out rs h hres
          refine ⟨k + 1, ?_, ?_⟩
          · rw [hk1, List.range'_succ]
            simp
          · rw [hk2, List.range'_succ]
            simp [hrowsD]
    · rw [scanLoop_stop (by omega)] at h
      have hout : out = ⟨.ok acc, probes⟩ := (Option.some.inj h).symm
      subst hout
      simp only at hres
      have hacc : rs = acc := by
        cases hres
        rfl
      refine ⟨0, by simp, by simp [hacc]⟩

/-- C10: whenever a scrape returns rows, they are exactly the concatenated
rows of the scanning-phase probes, each probed identifier contributing once
(the scan probes are duplicate-free); rows fetched while seeking are
discarded, so re-fetching the starting identifier duplicates nothing. -/
theorem c10_rows_from_scan_only :
    ∀ (idx : FetchResult) (fetch : ℕ → FetchResult) (limit fuel : ℕ)
      (out : ScrapeOut) (rs : List Rec),
      scrape_tfa_tournament idx fetch limit fuel = some out →
      out.result = .ok rs →
      rs = (out.scanProbes.map (pageRowsD fetch)).flatten
        ∧ out.scanProbes.Nodup := by
  intro idx fetch limit fuel out rs h hres
  unfold scrape_tfa_tournament at h
  cases hi : get_soup idx with
  | error e =>
    rw [hi] at h
    simp at h
    rw [← h] at hres
    simp at hres
  | ok isoup =>
    rw [hi] at h
    simp only at h
    by_cases hc : (extract_result_ids_from_index isoup).isEmpty
    · rw [if_pos hc] at h
      have hout : out = ⟨.ok [], [], []⟩ := (Option.some.inj h).symm
      subst hout
      simp only at hres
      have : rs = [] := by
        cases hres
        rfl
      subst this
      exact ⟨by simp, by simp⟩
    · rw [if_neg hc] at h
      cases hseek : find_true_starting_result_id fetch
          (extract_result_ids_from_index isoup) with
      | mk res sp =>
        rw [hseek] at h
        cases res with
        | error e =>
          simp at h
          rw [← h] at hres
          simp at hres
        | ok found =>
          simp only at h
          cases hscan : scanLoop fetch limit fuel
              (found.getD (pyMin (extract_result_ids_from_index isoup))) 0 [] [] with
          | none => rw [hscan] at h; simp at h
          | some o =>
            rw [hscan] at h
            simp at h
            obtain ⟨k, hk1, hk2⟩ := scanLoop_ok_decomp fuel _ 0 [] [] o rs hscan
              (by rw [← hres, ← h])
            rw [← h]
            simp only
            constructor
            · rw [hk1, hk2]
              simp
            · rw [hk1]
              simp [List.nodup_range']

/-- C10 witness: the theorem applied to a concrete scrape in which seeking
probes id 3, finds nothing, and the scan re-probes id 3 once: the returned
rows are the flattened rows of the scan probes, which are duplicate-free. -/
theorem c10_witness :
    ([] : List Rec)
      = (((⟨.ok [], [3], [3]⟩ : ScrapeOut).scanProbes.map (pageRowsD emptyFetch)).flatten)
    ∧ (⟨.ok [], [3], [3]⟩ : ScrapeOut).scanProbes.Nodup :=
  c10_rows_from_scan_only c10Idx emptyFetch 1 5 ⟨.ok [], [3], [3]⟩ []
    (by decide) rfl

/-! ## C3: facts about the numeric-token matcher -/

/-- A digit character is none of the pattern's special characters. -/
lemma isDigit_not_special {c : Char} (h : c.isDigit = true) :
    c ≠ '.' ∧ c ≠ ',' ∧ c ≠ '+' ∧ c ≠ '-' := by
  refine ⟨?_, ?_, ?_, ?_⟩ <;> intro he <;> subst he <;> exact absurd h (by decide)

/-- The digit run over an all-digit block followed by a non-digit head. -/
lemma digitRun_all_digits {rest : List Char}
    (hrest : ∀ c cs, rest = c :: cs → c.isDigit = false) :
    ∀ ds : List Char, (∀ c ∈ ds, c.isDigit = true) →
      digitRun (ds ++ rest) = (ds, rest) := by
  intro ds
  induction ds with
  | nil =>
    intro _
    cases hr : rest with
    | nil => rfl
    | cons c cs => simp [digitRun, hrest c cs hr]
  | cons d ds2 ih =>
    intro hds
    have hd := hds d (List.mem_cons_self d ds2)
    simp only [List.cons_append, digitRun, hd, if_true, List.append_eq]
    rw [ih (fun c hc => hds c (List.mem_cons_of_mem d hc))]

/-- The digit run stops immediately on a non-digit head. -/
lemma digitRun_no_digit_head : ∀ {cs : List Char},
    (∀ c cs2, cs = c :: cs2 → c.isDigit = false) → digitRun cs = ([], cs) := by
  intro cs h
  cases hc : cs with
  | nil => rfl
  | cons c cs2 => simp [digitRun, h c cs2 hc]

/-- The body matcher on a nonempty all-digit token. -/
lemma matchBody_digits {ds : List Char} (hne : ds ≠ [])
    (hds : ∀ c ∈ ds, c.isDigit = true) : matchBody ds = some ds := by
  have hrun : digitRun (ds ++ []) = (ds, []) :=
    digitRun_all_digits (by intro c cs h; cases h) ds hds
  rw [List.append_nil] at hrun
  unfold matchBody
  rw [hrun]
  simp [afterDot, List.isEmpty_iff, hne]

/-- The body matcher on digits, a decimal point, and further digits. -/
lemma matchBody_digits_frac {ds fs : List Char} (hdne : ds ≠ []) (hfne : fs ≠ [])
    (hds : ∀ c ∈ ds, c.isDigit = true) (hfs : ∀ c ∈ fs, c.isDigit = true) :
    matchBody (ds ++ '.' :: fs) = some (ds ++ '.' :: fs) := by
  have hrun : digitRun (ds ++ '.' :: fs) = (ds, '.' :: fs) :=
    digitRun_all_digits
      (by intro c cs h; injection h with h1 h2; subst h1; decide) ds hds
  have hrun2 : digitRun (fs ++ []) = (fs, []) :=
    digitRun_all_digits (by intro c cs h; cases h) fs hfs
  rw [List.append_nil] at hrun2
  unfold matchBody
  rw [hrun]
  simp [afterDot, hrun2, List.isEmpty_iff, hdne, hfne]

/-- The body matcher fails on input with no digit in it. -/
lemma matchBody_no_digit {cs : List Char} (h : ∀ c ∈ cs, c.isDigit = false) :
    matchBody cs = none := by
  have hrun : digitRun cs = ([], cs) :=
    digitRun_no_digit_head (fun c cs2 hc => h c (by rw [hc]; exact List.mem_cons_self c cs2))
  unfold matchBody
  rw [hrun]
  cases hc : cs with
  | nil => rfl
  | cons c cs2 =>
    by_cases hdot : c = '.'
    · subst hdot
      have hrun2 : digitRun cs2 = ([], cs2) :=
        digitRun_no_digit_head (fun d ds2 hd => by
          refine h d ?_
          rw [hc, hd]
          exact List.mem_cons_of_mem _ (List.mem_cons_self d ds2))
      simp [afterDot, hrun2]
    · simp [afterDot, hdot]

/-- The signed matcher agrees with the body matcher when the head is not a
sign character. -/
lemma matchSigned_cons (c : Char) (cs : List Char) :
    matchSigned (c :: cs)
      = if c = '+' ∨ c = '-' then
          (match matchBody cs with
           | some t => some (c :: t)
           | none => none)
        else matchBody (c :: cs) := rfl

/-- The signed matcher agrees with the body matcher when the head is not a
sign character. -/
lemma matchSigned_body {c : Char} {cs t : List Char}
    (h1 : c ≠ '+') (h2 : c ≠ '-') (hm : matchBody (c :: cs) = some t) :
    matchSigned (c :: cs) = some t := by
  rw [matchSigned_cons, if_neg (by tauto), hm]

/-- The signed matcher consumes a sign when the body matches after it. -/
lemma matchSigned_sign {c : Char} (hc : c = '+' ∨ c = '-') {cs t : List Char}
    (hm : matchBody cs = some t) : matchSigned (c :: cs) = some (c :: t) := by
  rw [matchSigned_cons, if_pos hc, hm]

/-- The signed matcher fails on input with no digit. -/
lemma matchSigned_no_digit {cs : List Char} (h : ∀ c ∈ cs, c.isDigit = false) :
    matchSigned cs = none := by
  cases cs with
  | nil => rfl
  | cons c cs2 =>
    rw [matchSigned_cons]
    by_cases hc : c = '+' ∨ c = '-'
    · rw [if_pos hc,
        matchBody_no_digit (fun x hx => h x (List.mem_cons_of_mem c hx))]
    · rw [if_neg hc]
      exact matchBody_no_digit h

/-- The search returns a match found at the first position. -/
lemma reSearchNum_head {c : Char} {cs t : List Char}
    (hm : matchSigned (c :: cs) = some t) : reSearchNum (c :: cs) = some t := by
  unfold reSearchNum
  rw [hm]

/-- The search fails on input with no digit. -/
lemma reSearchNum_no_digit : ∀ cs : List Char,
    (∀ c ∈ cs, c.isDigit = false) → reSearchNum cs = none := by
  intro cs
  induction cs with
  | nil => intro _; rfl
  | cons c cs2 ih =>
    intro h
    unfold reSearchNum
    rw [matchSigned_no_digit h]
    exact ih (fun x hx => h x (List.mem_cons_of_mem c hx))

/-- The search skips any prefix free of digits, signs, and dots. -/
lemma reSearchNum_skip : ∀ p : List Char,
    (∀ c ∈ p, c.isDigit = false ∧ c ≠ '+' ∧ c ≠ '-' ∧ c ≠ '.') →
    ∀ s : List Char, reSearchNum (p ++ s) = reSearchNum s := by
  intro p
  induction p with
  | nil => intro _ s; rfl
  | cons c p2 ih =>
    intro hp s
    obtain ⟨hd, hplus, hminus, hdot⟩ := hp c (List.mem_cons_self c p2)
    have hms : matchSigned (c :: (p2 ++ s)) = none := by
      rw [matchSigned_cons, if_neg (by tauto)]
      unfold matchBody
      rw [digitRun_no_digit_head (fun x xs hx => by injection hx with hx1 _; rw [← hx1]; exact hd)]
      simp [afterDot, hdot]
    have hstep : reSearchNum (c :: (p2 ++ s))
        = (match matchSigned (c :: (p2 ++ s)) with
           | some t => some t
           | none => reSearchNum (p2 ++ s)) := rfl
    rw [List.cons_append, hstep, hms]
    exact ih (fun x hx => hp x (List.mem_cons_of_mem c hx)) s

/-- Splitting a dot-free token at the decimal point returns it whole. -/
lemma splitFrac_no_dot {ds : List Char} (h : ∀ c ∈ ds, c ≠ '.') :
    splitFrac ds = (ds, []) := by
  induction ds with
  | nil => rfl
  | cons c cs ih =>
    simp only [splitFrac, h c (List.mem_cons_self c cs), if_false]
    rw [ih (fun x hx => h x (List.mem_cons_of_mem c hx))]

/-- Splitting at the decimal point of a token with dot-free integer part. -/
lemma splitFrac_dot {fs : List Char} : ∀ ds : List Char, (∀ c ∈ ds, c ≠ '.') →
    splitFrac (ds ++ '.' :: fs) = (ds, fs) := by
  intro ds
  induction ds with
  | nil => intro _; simp [splitFrac]
  | cons c cs ih =>
    intro h
    simp only [List.cons_append, splitFrac, h c (List.mem_cons_self c cs), if_false,
      List.append_eq]
    rw [ih (fun x hx => h x (List.mem_cons_of_mem c hx))]

/-- The Horner fold of `float()` computes the positional value. -/
lemma digitsToNat_eq_val : ∀ ds : List Char, digitsToNat ds = digitsVal ds := by
  intro ds
  induction ds using List.reverseRecOn with
  | nil => rfl
  | append_singleton ds c ih =>
    unfold digitsToNat digitsVal at *
    simp only [List.foldl_append, List.foldl_cons, List.foldl_nil, List.map_append,
      List.reverse_append, List.map_cons, List.map_nil, List.reverse_cons,
      List.reverse_nil, List.nil_append, List.cons_append, Nat.ofDigits_cons]
    rw [ih]
    ring

/-- The unsigned value of an all-digit token. -/
lemma bodyVal_digits {ds : List Char} (hds : ∀ c ∈ ds, c.isDigit = true) :
    bodyVal ds = (digitsVal ds : ℚ) := by
  unfold bodyVal
  rw [splitFrac_no_dot (fun c hc => (isDigit_not_special (hds c hc)).1)]
  simp [digitsToNat_eq_val, digitsVal]

/-- The unsigned value of a token with integer and fraction digits. -/
lemma bodyVal_digits_frac {ds fs : List Char} (hds : ∀ c ∈ ds, c.isDigit = true) :
    bodyVal (ds ++ '.' :: fs)
      = (digitsVal ds : ℚ) + (digitsVal fs : ℚ) / 10 ^ fs.length := by
  unfold bodyVal
  rw [splitFrac_dot ds (fun c hc => (isDigit_not_special (hds c hc)).1)]
  simp [digitsToNat_eq_val]

/-- `float()` on a token that does not start with a sign. -/
lemma tokVal_unsigned {c : Char} {cs : List Char} (h1 : c ≠ '-') (h2 : c ≠ '+') :
    tokVal (c :: cs) = bodyVal (c :: cs) := by
  simp [tokVal, h1, h2]

/-- Removing commas from a comma-free block is the identity. -/
lemma filter_comma_id {l : List Char} (h : ∀ c ∈ l, c ≠ ',') :
    l.filter notComma = l :=
  List.filter_eq_self.mpr (fun a ha => by simpa [notComma] using h a ha)

/-- Removing commas from comma-joined digit groups flattens them. -/
lemma filter_comma_joinComma : ∀ gs : List (List Char),
    (∀ g ∈ gs, ∀ c ∈ g, c ≠ ',') →
    (joinComma gs).filter notComma = gs.flatten := by
  intro gs
  induction gs with
  | nil => intro _; rfl
  | cons g gs2 ih =>
    intro h
    cases gs2 with
    | nil =>
      simp only [joinComma, List.flatten_cons, List.flatten_nil, List.append_nil]
      exact filter_comma_id (h g (List.mem_cons_self g []))
    | cons g2 gs3 =>
      simp only [joinComma, List.flatten_cons]
      rw [List.filter_append]
      rw [filter_comma_id (h g (List.mem_cons_self g (g2 :: gs3)))]
      rw [List.filter_cons]
      rw [show notComma ',' = false from by decide]
      simp only [Bool.false_eq_true, if_false]
      rw [ih (fun x hx => h x (List.mem_cons_of_mem g hx))]
      simp

/-- Removing commas from a rendered literal yields sign, flattened digit
groups and fraction part. -/
lemma render_filter (n : NumLit) (hwf : n.wf) :
    n.render.data.filter notComma
      = n.signChars ++ n.groups.flatten ++ n.fracChars := by
  obtain ⟨hg, hgs, hfs⟩ := hwf
  have hsign : ∀ c ∈ n.signChars, c ≠ ',' := by
    intro c hc
    cases hsg : n.sgn with
    | none => simp only [NumLit.signChars, hsg] at hc; cases hc
    | some b =>
      cases b <;> simp only [NumLit.signChars, hsg] at hc <;>
        rw [List.mem_singleton] at hc <;> subst hc <;> decide
  have hgroups : ∀ g ∈ n.groups, ∀ c ∈ g, c ≠ ',' :=
    fun g hg2 c hc => (isDigit_not_special ((hgs g hg2).2 c hc)).2.1
  have hfrac : ∀ c ∈ n.fracChars, c ≠ ',' := by
    intro c hc
    cases hfr : n.fracDigits with
    | none => simp only [NumLit.fracChars, hfr] at hc; cases hc
    | some fs =>
      simp only [NumLit.fracChars, hfr] at hc
      rcases List.mem_cons.mp hc with h1 | h2
      · subst h1; decide
      · exact (isDigit_not_special ((hfs fs hfr).2 c h2)).2.1
  show (n.signChars ++ joinComma n.groups ++ n.fracChars).filter notComma = _
  rw [List.filter_append, List.filter_append, filter_comma_id hsign,
    filter_comma_joinComma n.groups hgroups, filter_comma_id hfrac]

/-- The extractor computes the exact value of every well-formed
numeric-looking literal. -/
lemma extractPoints_render (n : NumLit) (hwf : n.wf) :
    extractPoints n.render = some n.value := by
  obtain ⟨hg, hgs, hfs⟩ := hwf
  have hflatd : ∀ c ∈ n.groups.flatten, c.isDigit = true := by
    intro c hc
    rw [List.mem_flatten] at hc
    obtain ⟨g, hg1, hg2⟩ := hc
    exact (hgs g hg1).2 c hg2
  have hflatne : n.groups.flatten ≠ [] := by
    cases hgg : n.groups with
    | nil => exact absurd hgg hg
    | cons g gs =>
      have hgne := (hgs g (by rw [hgg]; exact List.mem_cons_self g gs)).1
      simp [List.flatten_cons, List.append_eq_nil, hgne]
  have hbody : matchBody (n.groups.flatten ++ n.fracChars)
      = some (n.groups.flatten ++ n.fracChars) := by
    cases hfr : n.fracDigits with
    | none =>
      simp only [NumLit.fracChars, hfr, List.append_nil]
      exact matchBody_digits hflatne hflatd
    | some fs =>
      obtain ⟨hfne, hfd⟩ := hfs fs hfr
      simp only [NumLit.fracChars, hfr]
      exact matchBody_digits_frac hflatne hfne hflatd hfd
  have hmag : bodyVal (n.groups.flatten ++ n.fracChars)
      = (digitsVal n.groups.flatten : ℚ)
        + (match n.fracDigits with
           | none => (0 : ℚ)
           | some fs => (digitsVal fs : ℚ) / 10 ^ fs.length) := by
    cases hfr : n.fracDigits with
    | none =>
      simp only [NumLit.fracChars, hfr, List.append_nil]
      rw [bodyVal_digits hflatd]
      norm_num
    | some fs =>
      simp only [NumLit.fracChars, hfr]
      exact bodyVal_digits_frac hflatd
  obtain ⟨d, ds2, hds⟩ : ∃ d ds2, n.groups.flatten = d :: ds2 := by
    cases hgg : n.groups.flatten with
    | nil => exact absurd hgg hflatne
    | cons d ds2 => exact ⟨d, ds2, rfl⟩
  have hd : d.isDigit = true := hflatd d (by rw [hds]; exact List.mem_cons_self d ds2)
  obtain ⟨hdot, hcomma, hplus, hminus⟩ := isDigit_not_special hd
  have hlist : n.groups.flatten ++ n.fracChars = d :: (ds2 ++ n.fracChars) := by
    rw [hds, List.cons_append]
  unfold extractPoints
  rw [render_filter n ⟨hg, hgs, hfs⟩]
  cases hsg : n.sgn with
  | none =>
    have hsc : n.signChars = [] := by simp [NumLit.signChars, hsg]
    rw [hsc, List.nil_append, hlist,
      reSearchNum_head (matchSigned_body hplus hminus (by rw [← hlist]; exact hbody))]
    simp only [Option.map_some']
    rw [hlist, tokVal_unsigned hminus hplus, ← hlist, hmag]
    simp [NumLit.value, hsg]
  | some b =>
    cases b with
    | true =>
      have hsc : n.signChars = ['-'] := by simp [NumLit.signChars, hsg]
      rw [hsc, List.singleton_append, List.cons_append,
        reSearchNum_head (matchSigned_sign (Or.inr rfl) hbody)]
      simp only [Option.map_some']
      have htok : tokVal ('-' :: (n.groups.flatten ++ n.fracChars))
          = -bodyVal (n.groups.flatten ++ n.fracChars) := by
        simp [tokVal]
      rw [htok, hmag]
      simp [NumLit.value, hsg]
    | false =>
      have hsc : n.signChars = ['+'] := by simp [NumLit.signChars, hsg]
      rw [hsc, List.singleton_append, List.cons_append,
        reSearchNum_head (matchSigned_sign (Or.inl rfl) hbody)]
      simp only [Option.map_some']
      have htok : tokVal ('+' :: (n.groups.flatten ++ n.fracChars))
          = bodyVal (n.groups.flatten ++ n.fracChars) := by
        simp [tokVal]
      rw [htok, hmag]
      simp [NumLit.value, hsg]

/-- C3 (amended): the extractor computes the correct exact value of every
valid numeric-looking string (sign, comma-separated digit groups, optional
decimal part); it finds no match in any string containing no digit; and it
skips any prefix free of digits, signs, dots and commas — so a string whose
leading token is not numeric can still match at a later numeric token. -/
theorem c3_points_extractor :
    (∀ n : NumLit, n.wf → extractPoints n.render = some n.value)
    ∧ (∀ s : String, (∀ c ∈ s.data, c.isDigit = false) → extractPoints s = none)
    ∧ (∀ p s : List Char,
        (∀ c ∈ p, c.isDigit = false ∧ c ≠ '+' ∧ c ≠ '-' ∧ c ≠ '.' ∧ c ≠ ',') →
        extractPoints (String.mk (p ++ s)) = extractPoints (String.mk s)) := by
  refine ⟨extractPoints_render, ?_, ?_⟩
  · intro s h
    unfold extractPoints
    rw [reSearchNum_no_digit _ (fun c hc => h c (List.mem_filter.mp hc).1)]
    rfl
  · intro p s hp
    unfold extractPoints
    show (reSearchNum ((p ++ s).filter notComma)).map tokVal
      = (reSearchNum (s.filter notComma)).map tokVal
    rw [List.filter_append,
      filter_comma_id (fun c hc => (hp c hc).2.2.2.2),
      reSearchNum_skip p (fun c hc => ⟨(hp c hc).1, (hp c hc).2.1, (hp c hc).2.2.1,
        (hp c hc).2.2.2.1⟩)]

/-- C3 counterexample: on `"abc 12"` the leading token `abc` is not numeric,
yet the extractor matches the later token and yields 12 rather than "no
match" — refuting the claimed leading-token semantics. -/
theorem c3_leading_token_refuted :
    extractPoints "abc 12" = some (12 : ℚ) ∧ extractPoints "abc 12" ≠ none := by
  have h : extractPoints "abc 12" = some ((digitsVal ['1', '2'] : ℕ) : ℚ) := by
    unfold extractPoints
    have hsearch : reSearchNum (("abc 12" : String).data.filter notComma)
        = some ['1', '2'] := by decide
    rw [hsearch]
    simp only [Option.map_some']
    rw [tokVal_unsigned (by decide) (by decide), bodyVal_digits (by decide)]
  have h12 : digitsVal ['1', '2'] = 12 := by decide
  rw [h, h12]
  exact ⟨by norm_num, by simp⟩

/-- C3 witness: the amended theorem applied to the literal `-1,234.5`, to an
all-letters string, and to the prefix `"Rk "` before `"12.5"`. -/
theorem c3_witness :
    extractPoints c3Lit.render = some c3Lit.value
    ∧ extractPoints "points tba" = none
    ∧ extractPoints (String.mk (['R', 'k', ' '] ++ ("12.5" : String).data))
        = extractPoints (String.mk (("12.5" : String).data)) :=
  ⟨c3_points_extractor.1 c3Lit
    ⟨by decide, by decide,
     fun fs hfs => by
       injection hfs with hfs
       subst hfs
       exact ⟨by decide, by decide⟩⟩,
   c3_points_extractor.2.1 "points tba" (by decide),
   c3_points_extractor.2.2 ['R', 'k', ' '] ("12.5" : String).data (by decide)⟩

end TFA
